import Mathlib

/-!
Shallow embedding of the go-rest request-dispatch core: the handler
pipeline (src/pipeline.go), the time-ordered UUID generator and parser
(src/unnamed/part_000), the CORS guard (src/context.go) and the
entity/error responder (src/service.go), together with proofs settling
the frozen claims about them.

Machine integers are modelled as Nat with explicit masks and `% 2^w`
where Go wraps; Go's `(value, error)` returns become pairs with an
Option error component; a Go runtime panic is modelled as `none`.
-/

set_option maxRecDepth 8192

/-! ## Pipeline dispatch (src/pipeline.go, lines 126-184)

A `Pipeline` is `[]Handler`; a handler is either a `HandlerFunc` or a
`Pipeline` used as a handler.  A `HandlerFunc` is abstracted by an id
plus an environment `env` mapping the id and the dispatch result of the
continuation pipeline to the handler's own result, which lets a modelled
handler either use or ignore its continuation.  The dispatch result
`(interface{}, error)` is a pair of Options; the outer Option is `none`
exactly when the Go code would panic (index out of range). -/

abbrev GoPair := Option Nat × Option Nat

inductive PHandler where
  | hfunc (id : Nat)
  | hpipe (sub : List PHandler)

mutual

/-- Pipeline.Next (src/pipeline.go:152-158): the guard is written
`len(p) < 0` in the source, which is never true for a Go slice length,
so an empty pipeline reaches `p[0]` and panics (modelled `none`). -/
def nextP (env : Nat → Option GoPair → Option GoPair) (p : List PHandler) : Option GoPair :=
  if (Int.ofNat p.length) < 0 then
    some (none, none)
  else
    match p with
    | [] => none
    | h :: t => serveP env h t
termination_by sizeOf p

/-- Handler.ServeRequest: a HandlerFunc consults the environment (it may
use or discard the result of its continuation); a Pipeline used as a
handler re-dispatches itself, ignoring the parameter pipeline
(src/pipeline.go:163-165, the documented quirk). -/
def serveP (env : Nat → Option GoPair → Option GoPair) (h : PHandler) (x : List PHandler) : Option GoPair :=
  match h with
  | PHandler.hfunc id => env id (nextP env x)
  | PHandler.hpipe q => nextP env q
termination_by sizeOf h + sizeOf x

end

/-! ## Time-ordered UUIDs (src/unnamed/part_000, lines 141-424)

A UUID is 16 bytes, modelled as a `List Nat` of length 16 whose entries
are below 256. -/

def zeroUUID : List Nat := List.replicate 16 0

/-- Go `byte(x)`: truncation of an unsigned integer to its low 8 bits. -/
def byteOf (x : Nat) : Nat := x % 256

/-- UUIDFromTime (src/unnamed/part_000:282-302) as a pure function of the
60-bit tick count `t`, the post-increment clock sequence value `clock`
(a uint32), and the 6 node-id bytes.  Each entry is the final value of
the corresponding byte after the masking assignments at the end of the
source function. -/
def UUIDFromTime (t clock : Nat) (node : List Nat) : List Nat :=
  [ byteOf (t >>> 24), byteOf (t >>> 16), byteOf (t >>> 8), byteOf t,
    byteOf (t >>> 40), byteOf (t >>> 32),
    (byteOf (t >>> 56) &&& 0x0F) ||| 0x10,
    byteOf (t >>> 48),
    ((byteOf (clock >>> 8)) &&& 0x3F) ||| 0x80,
    byteOf clock,
    node.getD 0 0, node.getD 1 0, node.getD 2 0,
    node.getD 3 0, node.getD 4 0, node.getD 5 0 ]

/-- The lookup table `hexString = "0123456789abcdef"` used by
UUID.String (src/unnamed/part_000:310). -/
def hexChar (n : Nat) : Char := "0123456789abcdef".toList.getD n ' '

/-- The offsets table of UUID.String (src/unnamed/part_000:309). -/
def uuidOffsets : List Nat := [0, 2, 4, 6, 9, 11, 14, 16, 19, 21, 24, 26, 28, 30, 32, 34]

/-- UUID.String (src/unnamed/part_000:308-318): write the two hex digits
of byte i at offsets[i] and offsets[i]+1 of a 36-character buffer, then
place hyphens at positions 8, 13, 18 and 23. -/
def uuidString (u : List Nat) : String :=
  let r := (u.zip uuidOffsets).foldl
    (fun r bo => (r.set bo.2 (hexChar (bo.1 >>> 4))).set (bo.2 + 1) (hexChar (bo.1 &&& 0xF)))
    (List.replicate 36 ' ')
  let r := (((r.set 8 '-').set 13 '-').set 18 '-').set 23 '-'
  String.mk r

/-- One iteration of the character loop of ParseUUID
(src/unnamed/part_000:188-210).  State: the 16-byte accumulator and the
count `j` of hex digits consumed; `none` records that the default case
(the error return) was taken.  The shift `4 - j&1*4` of the source is
`4 - (j &&& 1) * 4` (Go precedence: `j&1` binds tighter than `*`). -/
def parseStep (s : Option (List Nat × Nat)) (r : Char) : Option (List Nat × Nat) :=
  match s with
  | none => none
  | some (u, j) =>
    if r = '-' ∧ j &&& 1 = 0 then
      some (u, j)
    else if ('0' ≤ r ∧ r ≤ '9') ∧ j < 32 then
      some (u.set (j / 2) ((u.getD (j / 2) 0) ||| ((r.toNat - '0'.toNat) <<< (4 - (j &&& 1) * 4))), j + 1)
    else if ('a' ≤ r ∧ r ≤ 'f') ∧ j < 32 then
      some (u.set (j / 2) ((u.getD (j / 2) 0) ||| ((r.toNat - 'a'.toNat + 10) <<< (4 - (j &&& 1) * 4))), j + 1)
    else if ('A' ≤ r ∧ r ≤ 'F') ∧ j < 32 then
      some (u.set (j / 2) ((u.getD (j / 2) 0) ||| ((r.toNat - 'A'.toNat + 10) <<< (4 - (j &&& 1) * 4))), j + 1)
    else
      none

/-- ParseUUID (src/unnamed/part_000:188-210).  Returns the UUID and an
optional error; every error path of the source returns the zero UUID
together with `fmt.Errorf("invalid UUID %q", input)`. -/
def ParseUUID (input : String) : List Nat × Option String :=
  match input.toList.foldl parseStep (some (zeroUUID, 0)) with
  | some (u, j) =>
    if j = 32 then (u, none)
    else (zeroUUID, some ("invalid UUID \"" ++ input ++ "\""))
  | none => (zeroUUID, some ("invalid UUID \"" ++ input ++ "\""))

/-! ### C1 and C9 -/

/-- C1: the claim states that dispatching an empty pipeline via Next
returns (nil, nil) and that the indexing branch is never reached.  On
the code the guard `len(p) < 0` is never true (a Go slice length is
non-negative), so an empty pipeline falls into the indexing branch and
`p[0]` raises an index-out-of-range panic, modelled here by `none`;
`some (none, none)` would be the claimed (nil, nil) return.  This
theorem evaluates the code at the failing input. -/
theorem empty_pipeline_dispatch_faults :
    ∀ env, nextP env [] = none ∧ nextP env [] ≠ some (none, none) := by
  intro env
  rw [nextP]
  simp

/-- C9: two time-ordered UUIDs generated at consecutive clock-sequence
counter values (uint32 increments, hence the `% 2^32`) are distinct even
when their 60-bit timestamp `t` and node id coincide: byte 9, the packed
low byte of the clock sequence, necessarily differs. -/
theorem timeUUID_consecutive_clockseq_distinct :
    ∀ (t c : Nat) (node : List Nat),
      UUIDFromTime t (c % 2 ^ 32) node ≠ UUIDFromTime t ((c + 1) % 2 ^ 32) node := by
  intro t c node h
  have h9 := congrArg (fun l => l.getD 9 0) h
  simp only [UUIDFromTime, List.getD_cons_succ, List.getD_cons_zero] at h9
  have e1 : c % 2 ^ 32 % 256 = c % 256 := Nat.mod_mod_of_dvd c (by norm_num)
  have e2 : (c + 1) % 2 ^ 32 % 256 = (c + 1) % 256 := Nat.mod_mod_of_dvd (c + 1) (by norm_num)
  simp only [byteOf] at h9
  rw [e1, e2] at h9
  omega

/-! ### Round-trip machinery for C7 -/

/-- The hex rendering of a byte sequence without hyphens: the digit pairs
UUID.String writes at consecutive offsets. -/
def hexPairs : List Nat → List Char
  | [] => []
  | b :: rest => hexChar (b >>> 4) :: hexChar (b &&& 0xF) :: hexPairs rest

/-- Sequential overwrite of a list starting at index k. -/
def setRange (u : List Nat) (k : Nat) : List Nat → List Nat
  | [] => u
  | b :: rest => setRange (u.set k b) (k + 1) rest

lemma getD_set_ne (l : List Nat) (i j a : Nat) (h : i ≠ j) :
    (l.set i a).getD j 0 = l.getD j 0 := by
  simp [List.getD, List.getElem?_set_ne h]

lemma getD_set_self (l : List Nat) (i a : Nat) (h : i < l.length) :
    (l.set i a).getD i 0 = a := by
  simp [List.getD, List.getElem?_set_self, h]

lemma getD_zeroUUID (i : Nat) : zeroUUID.getD i 0 = 0 := by
  rcases Nat.lt_or_ge i 16 with h | h
  · rw [zeroUUID, List.getD_eq_getElem _ _ (by simpa using h)]
    exact List.getElem_replicate _ _
  · simp [zeroUUID, List.getD, List.getElem?_eq_none_iff.mpr, List.length_replicate, h]

lemma getD_setRange_ge (bs : List Nat) : ∀ (u : List Nat) (k i : Nat),
    k + bs.length ≤ i → (setRange u k bs).getD i 0 = u.getD i 0 := by
  induction bs with
  | nil => intro u k i _; rfl
  | cons b rest ih =>
    intro u k i hi
    rw [setRange, ih _ _ _ (by simp at hi ⊢; omega), getD_set_ne _ _ _ _ (by simp at hi; omega)]

lemma length_setRange (bs : List Nat) : ∀ (u : List Nat) (k : Nat),
    (setRange u k bs).length = u.length := by
  induction bs with
  | nil => intro u k; rfl
  | cons b rest ih => intro u k; rw [setRange, ih, List.length_set]

/-- Evaluating one parse step at the hex character of a nibble n < 16:
the three hex ranges of the source collapse to writing n at the current
nibble position. -/
lemma parseStep_hex (n : Nat) (hn : n < 16) (u : List Nat) (j : Nat) (hj : j < 32) :
    parseStep (some (u, j)) (hexChar n)
      = some (u.set (j / 2) ((u.getD (j / 2) 0) ||| (n <<< (4 - (j &&& 1) * 4))), j + 1) := by
  interval_cases n <;>
    simp only [parseStep, hexChar] <;>
    rw [if_neg (by intro hc; exact absurd hc.1 (by decide))] <;>
    first
    | (rw [if_pos ⟨by decide, hj⟩]; rfl)
    | (rw [if_neg (by intro hc; exact absurd hc.1.2 (by decide)),
           if_pos ⟨by decide, hj⟩]; rfl)

lemma fold_hyphen (u : List Nat) (j : Nat) (cs : List Char) (hj : j % 2 = 0) :
    List.foldl parseStep (some (u, j)) ('-' :: cs)
      = List.foldl parseStep (some (u, j)) cs := by
  have hstep : parseStep (some (u, j)) '-' = some (u, j) := by
    simp only [parseStep]
    rw [if_pos ⟨trivial, by rw [Nat.and_one_is_mod]; exact hj⟩]
  rw [List.foldl_cons, hstep]

/-- Parsing the two hex digits of a byte b from an even digit count j
with a still-zero target cell reconstructs exactly b. -/
lemma fold_pair (b j : Nat) (u : List Nat) (cs : List Char)
    (hb : b < 256) (hj : j % 2 = 0) (hlt : j < 32)
    (hlen : j / 2 < u.length) (hz : u.getD (j / 2) 0 = 0) :
    List.foldl parseStep (some (u, j)) (hexChar (b >>> 4) :: hexChar (b &&& 0xF) :: cs)
      = List.foldl parseStep (some (u.set (j / 2) b, j + 2)) cs := by
  have key : ∀ m : Nat, m < 256 →
      m >>> 4 < 16 ∧ (m &&& 0xF) < 16 ∧
      ((0 ||| ((m >>> 4) <<< (4 - 0 * 4))) ||| ((m &&& 0xF) <<< (4 - 1 * 4))) = m := by
    decide
  have hand : j &&& 1 = 0 := by rw [Nat.and_one_is_mod]; exact hj
  have hand1 : (j + 1) &&& 1 = 1 := by rw [Nat.and_one_is_mod]; omega
  have hdiv : (j + 1) / 2 = j / 2 := by omega
  rw [List.foldl_cons, parseStep_hex _ ((key b hb).1) u j hlt, List.foldl_cons,
      parseStep_hex _ ((key b hb).2.1) _ (j + 1) (by omega)]
  rw [hand, hz, hdiv, getD_set_self _ _ _ hlen, hand1, List.set_set]
  rw [(key b hb).2.2]

/-- Parsing the hex-pair rendering of a byte block overwrite-reconstructs
it in the accumulator. -/
lemma fold_bytes (bs : List Nat) : ∀ (u : List Nat) (j : Nat) (cs : List Char),
    (∀ b ∈ bs, b < 256) → u.length = 16 → j % 2 = 0 → j + 2 * bs.length ≤ 32 →
    (∀ i, j / 2 ≤ i → u.getD i 0 = 0) →
    List.foldl parseStep (some (u, j)) (hexPairs bs ++ cs)
      = List.foldl parseStep (some (setRange u (j / 2) bs, j + 2 * bs.length)) cs := by
  induction bs with
  | nil => intro u j cs _ _ _ _ _; simp [hexPairs, setRange]
  | cons b rest ih =>
    intro u j cs hb hlen hj hbound hz
    have hjlt : j < 32 := by simp at hbound; omega
    rw [hexPairs, List.cons_append, List.cons_append,
        fold_pair b j u _ (hb b (by simp)) hj hjlt (by omega) (hz _ (Nat.le_refl _))]
    have hdiv2 : (j + 2) / 2 = j / 2 + 1 := by omega
    rw [ih (u.set (j / 2) b) (j + 2) cs (fun x hx => hb x (by simp [hx]))
        (by rw [List.length_set]; exact hlen) (by omega) (by simp at hbound ⊢; omega)
        (fun i hi => by
          rw [hdiv2] at hi
          rw [getD_set_ne _ _ _ _ (by omega)]
          exact hz i (by omega))]
    rw [hdiv2, setRange]
    congr 2
    simp
    omega

/-- The character buffer UUID.String produces, re-expressed as the four
hyphen-separated groups of hex digit pairs. -/
lemma uuidString_bridge (b0 b1 b2 b3 b4 b5 b6 b7 b8 b9 b10 b11 b12 b13 b14 b15 : Nat) :
    uuidString [b0, b1, b2, b3, b4, b5, b6, b7, b8, b9, b10, b11, b12, b13, b14, b15]
      = String.mk (hexPairs [b0, b1, b2, b3] ++ '-' ::
          (hexPairs [b4, b5] ++ '-' :: (hexPairs [b6, b7] ++ '-' ::
            (hexPairs [b8, b9] ++ '-' :: hexPairs [b10, b11, b12, b13, b14, b15])))) := by
  simp only [uuidString, uuidOffsets, hexPairs, List.zip_cons_cons, List.zip_nil_right,
    List.foldl_cons, List.foldl_nil, List.replicate, List.set_cons_zero, List.set_cons_succ,
    List.cons_append, List.nil_append]

/-- Restatement of fold_bytes with the output state supplied up front, so
it can rewrite a goal without post-normalising arithmetic. -/
lemma fold_bytes_eq (bs : List Nat) (u : List Nat) (j j2 k : Nat) (cs : List Char)
    (hb : ∀ b ∈ bs, b < 256) (hlen : u.length = 16) (hj : j % 2 = 0)
    (hbound : j + 2 * bs.length ≤ 32) (hz : ∀ i, j / 2 ≤ i → u.getD i 0 = 0)
    (hj2 : j2 = j + 2 * bs.length) (hk : k = j / 2) :
    List.foldl parseStep (some (u, j)) (hexPairs bs ++ cs)
      = List.foldl parseStep (some (setRange u k bs, j2)) cs := by
  subst hj2 hk
  exact fold_bytes bs u j cs hb hlen hj hbound hz

/-- C7: parsing the canonical rendering of any 16-byte UUID returns the
same UUID with no error: ParseUUID(u.String()) round-trips. -/
theorem ParseUUID_roundtrip (u : List Nat) (hlen : u.length = 16)
    (hb : ∀ b ∈ u, b < 256) : ParseUUID (uuidString u) = (u, none) := by
  rcases u with _ | ⟨b0, u⟩; · simp at hlen
  rcases u with _ | ⟨b1, u⟩; · simp at hlen
  rcases u with _ | ⟨b2, u⟩; · simp at hlen
  rcases u with _ | ⟨b3, u⟩; · simp at hlen
  rcases u with _ | ⟨b4, u⟩; · simp at hlen
  rcases u with _ | ⟨b5, u⟩; · simp at hlen
  rcases u with _ | ⟨b6, u⟩; · simp at hlen
  rcases u with _ | ⟨b7, u⟩; · simp at hlen
  rcases u with _ | ⟨b8, u⟩; · simp at hlen
  rcases u with _ | ⟨b9, u⟩; · simp at hlen
  rcases u with _ | ⟨b10, u⟩; · simp at hlen
  rcases u with _ | ⟨b11, u⟩; · simp at hlen
  rcases u with _ | ⟨b12, u⟩; · simp at hlen
  rcases u with _ | ⟨b13, u⟩; · simp at hlen
  rcases u with _ | ⟨b14, u⟩; · simp at hlen
  rcases u with _ | ⟨b15, u⟩; · simp at hlen
  rcases u with _ | ⟨bx, u⟩
  case cons => simp at hlen
  obtain ⟨h0, h1, h2, h3, h4, h5, h6, h7, h8, h9, h10, h11, h12, h13, h14, h15⟩ :
      b0 < 256 ∧ b1 < 256 ∧ b2 < 256 ∧ b3 < 256 ∧ b4 < 256 ∧ b5 < 256 ∧ b6 < 256 ∧
      b7 < 256 ∧ b8 < 256 ∧ b9 < 256 ∧ b10 < 256 ∧ b11 < 256 ∧ b12 < 256 ∧ b13 < 256 ∧
      b14 < 256 ∧ b15 < 256 := by
    refine ⟨?_, ?_, ?_, ?_, ?_, ?_, ?_, ?_, ?_, ?_, ?_, ?_, ?_, ?_, ?_, ?_⟩ <;>
      apply hb <;> simp
  rw [uuidString_bridge]
  have hts : (String.mk (hexPairs [b0, b1, b2, b3] ++ '-' ::
      (hexPairs [b4, b5] ++ '-' :: (hexPairs [b6, b7] ++ '-' ::
        (hexPairs [b8, b9] ++ '-' :: hexPairs [b10, b11, b12, b13, b14, b15]))))).toList
      = hexPairs [b0, b1, b2, b3] ++ '-' ::
          (hexPairs [b4, b5] ++ '-' :: (hexPairs [b6, b7] ++ '-' ::
            (hexPairs [b8, b9] ++ '-' :: hexPairs [b10, b11, b12, b13, b14, b15]))) := rfl
  simp only [ParseUUID, hts]
  rw [fold_bytes_eq [b0, b1, b2, b3] zeroUUID 0 8 0 _
    (by intro x hx; simp at hx; rcases hx with rfl | rfl | rfl | rfl
        exacts [h0, h1, h2, h3])
    (by rfl) (by norm_num) (by norm_num) (fun i _ => getD_zeroUUID i)
    (by norm_num) (by norm_num)]
  rw [fold_hyphen _ _ _ (by norm_num)]
  rw [fold_bytes_eq [b4, b5] _ 8 12 4 _
    (by intro x hx; simp at hx; rcases hx with rfl | rfl
        exacts [h4, h5])
    (by rw [length_setRange]; rfl) (by norm_num) (by norm_num)
    (by intro i hi
        norm_num at hi
        rw [getD_setRange_ge _ _ _ _ (by norm_num; omega)]
        exact getD_zeroUUID i)
    (by norm_num) (by norm_num)]
  rw [fold_hyphen _ _ _ (by norm_num)]
  rw [fold_bytes_eq [b6, b7] _ 12 16 6 _
    (by intro x hx; simp at hx; rcases hx with rfl | rfl
        exacts [h6, h7])
    (by rw [length_setRange, length_setRange]; rfl) (by norm_num) (by norm_num)
    (by intro i hi
        norm_num at hi
        rw [getD_setRange_ge _ _ _ _ (by norm_num; omega),
            getD_setRange_ge _ _ _ _ (by norm_num; omega)]
        exact getD_zeroUUID i)
    (by norm_num) (by norm_num)]
  rw [fold_hyphen _ _ _ (by norm_num)]
  rw [fold_bytes_eq [b8, b9] _ 16 20 8 _
    (by intro x hx; simp at hx; rcases hx with rfl | rfl
        exacts [h8, h9])
    (by rw [length_setRange, length_setRange, length_setRange]; rfl) (by norm_num) (by norm_num)
    (by intro i hi
        norm_num at hi
        rw [getD_setRange_ge _ _ _ _ (by norm_num; omega),
            getD_setRange_ge _ _ _ _ (by norm_num; omega),
            getD_setRange_ge _ _ _ _ (by norm_num; omega)]
        exact getD_zeroUUID i)
    (by norm_num) (by norm_num)]
  rw [fold_hyphen _ _ _ (by norm_num)]
  rw [show hexPairs [b10, b11, b12, b13, b14, b15]
        = hexPairs [b10, b11, b12, b13, b14, b15] ++ [] by simp]
  rw [fold_bytes_eq [b10, b11, b12, b13, b14, b15] _ 20 32 10 []
    (by intro x hx; simp at hx; rcases hx with rfl | rfl | rfl | rfl | rfl | rfl
        exacts [h10, h11, h12, h13, h14, h15])
    (by rw [length_setRange, length_setRange, length_setRange, length_setRange]; rfl)
    (by norm_num) (by norm_num)
    (by intro i hi
        norm_num at hi
        rw [getD_setRange_ge _ _ _ _ (by norm_num; omega),
            getD_setRange_ge _ _ _ _ (by norm_num; omega),
            getD_setRange_ge _ _ _ _ (by norm_num; omega),
            getD_setRange_ge _ _ _ _ (by norm_num; omega)]
        exact getD_zeroUUID i)
    (by norm_num) (by norm_num)]
  rw [List.foldl_nil]
  simp [setRange, zeroUUID, List.replicate]

/-- C7 witness input: a concrete UUID with all distinct bytes. -/
def demoUUID : List Nat :=
  [0, 17, 34, 51, 68, 85, 102, 119, 136, 153, 170, 187, 204, 221, 238, 255]

/-- Witness for C7 at a concrete UUID. -/
theorem ParseUUID_roundtrip_witness : ParseUUID (uuidString demoUUID) = (demoUUID, none) :=
  ParseUUID_roundtrip demoUUID (by decide) (by decide)

/-! ### Error characterization of ParseUUID (C8) -/

/-- The hex-digit test of the parser's three accepting ranges. -/
def isHexDigitGo (c : Char) : Bool :=
  ('0' ≤ c && c ≤ '9') || ('a' ≤ c && c ≤ 'f') || ('A' ≤ c && c ≤ 'F')

/-- Count of significant hex digits of an input. -/
def hexCnt (cs : List Char) : Nat := (cs.filter isHexDigitGo).length

/-- The acceptance condition the parser's loop enforces from a digit
count j: hyphens only at even digit counts, all other characters hex
digits, at most 32 digits in total. -/
def goodTail : Nat → List Char → Bool
  | _, [] => true
  | j, r :: rest =>
    if r = '-' ∧ j &&& 1 = 0 then goodTail j rest
    else if isHexDigitGo r ∧ j < 32 then goodTail (j + 1) rest
    else false

/-- Position check for hyphens only: every hyphen is preceded by an even
number of hex digits (non-hex characters are skipped; they are ruled out
by a separate condition). -/
def hyphensEven : Nat → List Char → Bool
  | _, [] => true
  | j, c :: rest =>
    if c = '-' then decide (j % 2 = 0) && hyphensEven j rest
    else if isHexDigitGo c then hyphensEven (j + 1) rest
    else hyphensEven j rest

lemma foldl_parseStep_start_none (cs : List Char) :
    List.foldl parseStep none cs = none := by
  induction cs with
  | nil => rfl
  | cons c rest ih => rw [List.foldl_cons]; exact ih

lemma isHexDigitGo_iff (c : Char) :
    isHexDigitGo c = true ↔
      (('0' ≤ c ∧ c ≤ '9') ∨ ('a' ≤ c ∧ c ≤ 'f') ∨ ('A' ≤ c ∧ c ≤ 'F')) := by
  simp [isHexDigitGo, Bool.or_eq_true, Bool.and_eq_true, decide_eq_true_eq, or_assoc]

lemma parseStep_hyph (u : List Nat) (j : Nat) (c : Char) (h : c = '-' ∧ j &&& 1 = 0) :
    parseStep (some (u, j)) c = some (u, j) := by
  simp only [parseStep]
  rw [if_pos h]

lemma parseStep_digit (u : List Nat) (j : Nat) (c : Char)
    (hn : ¬(c = '-' ∧ j &&& 1 = 0)) (hj : j < 32)
    (hd : ('0' ≤ c ∧ c ≤ '9') ∨ ('a' ≤ c ∧ c ≤ 'f') ∨ ('A' ≤ c ∧ c ≤ 'F')) :
    ∃ w, parseStep (some (u, j)) c = some (w, j + 1) := by
  simp only [parseStep]
  rw [if_neg hn]
  by_cases h1 : ('0' ≤ c ∧ c ≤ '9') ∧ j < 32
  · rw [if_pos h1]; exact ⟨_, rfl⟩
  by_cases h2 : ('a' ≤ c ∧ c ≤ 'f') ∧ j < 32
  · rw [if_neg h1, if_pos h2]; exact ⟨_, rfl⟩
  by_cases h3 : ('A' ≤ c ∧ c ≤ 'F') ∧ j < 32
  · rw [if_neg h1, if_neg h2, if_pos h3]; exact ⟨_, rfl⟩
  · exfalso
    rcases hd with h | h | h
    · exact h1 ⟨h, hj⟩
    · exact h2 ⟨h, hj⟩
    · exact h3 ⟨h, hj⟩

lemma parseStep_bad (u : List Nat) (j : Nat) (c : Char)
    (hn : ¬(c = '-' ∧ j &&& 1 = 0))
    (hbad : ¬((('0' ≤ c ∧ c ≤ '9') ∨ ('a' ≤ c ∧ c ≤ 'f') ∨ ('A' ≤ c ∧ c ≤ 'F')) ∧ j < 32)) :
    parseStep (some (u, j)) c = none := by
  simp only [parseStep]
  rw [if_neg hn,
      if_neg (fun hc => hbad ⟨Or.inl hc.1, hc.2⟩),
      if_neg (fun hc => hbad ⟨Or.inr (Or.inl hc.1), hc.2⟩),
      if_neg (fun hc => hbad ⟨Or.inr (Or.inr hc.1), hc.2⟩)]

lemma hexCnt_cons_pos (c : Char) (rest : List Char) (h : isHexDigitGo c = true) :
    hexCnt (c :: rest) = 1 + hexCnt rest := by
  simp [hexCnt, List.filter_cons, h, Nat.add_comm]

lemma hexCnt_cons_neg (c : Char) (rest : List Char) (h : isHexDigitGo c = false) :
    hexCnt (c :: rest) = hexCnt rest := by
  simp [hexCnt, List.filter_cons, h]

lemma foldl_good (cs : List Char) : ∀ (u : List Nat) (j : Nat),
    goodTail j cs = true →
    ∃ w, List.foldl parseStep (some (u, j)) cs = some (w, j + hexCnt cs) := by
  induction cs with
  | nil => intro u j _; exact ⟨u, by simp [hexCnt]⟩
  | cons r rest ih =>
    intro u j hg
    rw [goodTail] at hg
    by_cases hh : r = '-' ∧ j &&& 1 = 0
    · rw [if_pos hh] at hg
      obtain ⟨w, hw⟩ := ih u j hg
      refine ⟨w, ?_⟩
      rw [List.foldl_cons, parseStep_hyph u j r hh, hw,
          hexCnt_cons_neg r rest (by rw [hh.1]; decide)]
    · rw [if_neg hh] at hg
      by_cases hd : isHexDigitGo r ∧ j < 32
      · rw [if_pos hd] at hg
        obtain ⟨w1, hw1⟩ := parseStep_digit u j r hh hd.2 ((isHexDigitGo_iff r).mp hd.1)
        obtain ⟨w, hw⟩ := ih w1 (j + 1) hg
        refine ⟨w, ?_⟩
        rw [List.foldl_cons, hw1, hw, hexCnt_cons_pos r rest hd.1]
        congr 2
        omega
      · rw [if_neg hd] at hg
        exact absurd hg (by decide)

lemma foldl_bad (cs : List Char) : ∀ (u : List Nat) (j : Nat),
    goodTail j cs = false →
    List.foldl parseStep (some (u, j)) cs = none := by
  induction cs with
  | nil =>
    intro u j hg
    rw [goodTail] at hg
    exact absurd hg (by decide)
  | cons r rest ih =>
    intro u j hg
    rw [goodTail] at hg
    by_cases hh : r = '-' ∧ j &&& 1 = 0
    · rw [if_pos hh] at hg
      rw [List.foldl_cons, parseStep_hyph u j r hh]
      exact ih u j hg
    · rw [if_neg hh] at hg
      by_cases hd : isHexDigitGo r ∧ j < 32
      · rw [if_pos hd] at hg
        obtain ⟨w1, hw1⟩ := parseStep_digit u j r hh hd.2 ((isHexDigitGo_iff r).mp hd.1)
        rw [List.foldl_cons, hw1]
        exact ih w1 (j + 1) hg
      · rw [List.foldl_cons,
            parseStep_bad u j r hh
              (fun hc => hd ⟨(isHexDigitGo_iff r).mpr hc.1, hc.2⟩)]
        exact foldl_parseStep_start_none rest

lemma goodTail_iff (cs : List Char) : ∀ j : Nat, j ≤ 32 →
    (goodTail j cs = true ↔
      ((∀ c ∈ cs, isHexDigitGo c = true ∨ c = '-') ∧ hyphensEven j cs = true ∧
        j + hexCnt cs ≤ 32)) := by
  induction cs with
  | nil =>
    intro j hj
    constructor
    · intro _
      exact ⟨by simp, rfl, by simpa [hexCnt] using hj⟩
    · intro _; rfl
  | cons r rest ih =>
    intro j hj
    rw [goodTail]
    by_cases hh : r = '-' ∧ j &&& 1 = 0
    · rw [if_pos hh]
      have hrh : isHexDigitGo r = false := by rw [hh.1]; decide
      have hje : j % 2 = 0 := by rw [← Nat.and_one_is_mod]; exact hh.2
      rw [ih j hj]
      constructor
      · rintro ⟨hmem, hhyp, hcnt⟩
        refine ⟨?_, ?_, ?_⟩
        · intro c hc
          rcases List.mem_cons.mp hc with rfl | hc
          · exact Or.inr hh.1
          · exact hmem c hc
        · rw [hyphensEven, if_pos hh.1, hhyp]
          simp [hje]
        · rw [hexCnt_cons_neg r rest hrh]; exact hcnt
      · rintro ⟨hmem, hhyp, hcnt⟩
        rw [hyphensEven, if_pos hh.1, Bool.and_eq_true] at hhyp
        refine ⟨fun c hc => hmem c (List.mem_cons_of_mem r hc), hhyp.2, ?_⟩
        rw [hexCnt_cons_neg r rest hrh] at hcnt
        exact hcnt
    · rw [if_neg hh]
      by_cases hd : isHexDigitGo r ∧ j < 32
      · rw [if_pos hd]
        have hrn : r ≠ '-' := by
          intro hr
          rw [hr] at hd
          exact absurd hd.1 (by decide)
        rw [ih (j + 1) (by omega)]
        constructor
        · rintro ⟨hmem, hhyp, hcnt⟩
          refine ⟨?_, ?_, ?_⟩
          · intro c hc
            rcases List.mem_cons.mp hc with rfl | hc
            · exact Or.inl hd.1
            · exact hmem c hc
          · rw [hyphensEven, if_neg hrn, if_pos hd.1]
            exact hhyp
          · rw [hexCnt_cons_pos r rest hd.1]
            omega
        · rintro ⟨hmem, hhyp, hcnt⟩
          rw [hyphensEven, if_neg hrn, if_pos hd.1] at hhyp
          refine ⟨fun c hc => hmem c (List.mem_cons_of_mem r hc), hhyp, ?_⟩
          rw [hexCnt_cons_pos r rest hd.1] at hcnt
          omega
      · simp only [if_neg hd, Bool.false_eq_true, false_iff]
        rintro ⟨hmem, hhyp, hcnt⟩
        rcases hmem r (List.mem_cons_self r rest) with hhex | hhyphen
        · -- r is a hex digit, so the digit branch must have been enabled
          apply hd
          refine ⟨hhex, ?_⟩
          rw [hexCnt_cons_pos r rest hhex] at hcnt
          omega
        · -- r is a hyphen at an even position, contradicting hh
          rw [hyphensEven, if_pos hhyphen, Bool.and_eq_true, decide_eq_true_eq] at hhyp
          exact hh ⟨hhyphen, by rw [Nat.and_one_is_mod]; exact hhyp.1⟩

/-- C8 (amended): ParseUUID fails exactly when the input does not have 32
significant hex digits, or contains a character that is neither a hex
digit nor a hyphen, or has a hyphen preceded by an odd number of hex
digits (the source accepts a hyphen at any even digit count, not only at
the canonical 8-4-4-4-12 boundaries); on error the returned UUID is the
zero value. -/
theorem ParseUUID_error_characterization (input : String) :
    ((ParseUUID input).2 ≠ none ↔
      ¬(hexCnt input.toList = 32 ∧
        (∀ c ∈ input.toList, isHexDigitGo c = true ∨ c = '-') ∧
        hyphensEven 0 input.toList = true)) ∧
    ((ParseUUID input).2 ≠ none → (ParseUUID input).1 = zeroUUID) := by
  constructor
  · cases hgt : goodTail 0 input.data with
    | true =>
      obtain ⟨w, hw⟩ := foldl_good input.data zeroUUID 0 hgt
      rw [Nat.zero_add] at hw
      obtain ⟨hmem, hhyp, _⟩ := (goodTail_iff input.data 0 (by omega)).mp hgt
      by_cases h32 : hexCnt input.data = 32
      · simp only [ParseUUID, String.toList, hw, h32, hmem, hhyp]
        simp
        intro x hx hfalse
        rcases hmem x hx with h | h
        · rw [h] at hfalse
          exact absurd hfalse (by decide)
        · exact h
      · simp [ParseUUID, String.toList, hw, h32]
    | false =>
      have hw := foldl_bad input.data zeroUUID 0 hgt
      simp only [ParseUUID, String.toList, hw, ne_eq, reduceCtorEq, not_false_eq_true, true_iff]
      rintro ⟨h32, hmem, hhyp⟩
      rw [(goodTail_iff input.data 0 (by omega)).mpr ⟨hmem, hhyp, by omega⟩] at hgt
      exact absurd hgt (by decide)
  · intro herr
    rcases hm : input.data.foldl parseStep (some (zeroUUID, 0)) with _ | ⟨w, j⟩
    · simp [ParseUUID, String.toList, hm]
    · by_cases hj : j = 32
      · exfalso
        apply herr
        simp [ParseUUID, String.toList, hm, hj]
      · simp [ParseUUID, String.toList, hm, hj]

/-- Witness for C8: a concrete malformed input ("zz") is rejected. -/
theorem ParseUUID_error_characterization_witness : (ParseUUID "zz").2 ≠ none :=
  (ParseUUID_error_characterization "zz").1.mpr (by decide)

/-- Spec-side helper (from the claim's words): the number of hex digits
preceding each hyphen of the input. -/
def hyphenDigitPositions : Nat → List Char → List Nat
  | _, [] => []
  | j, c :: rest =>
    if c = '-' then j :: hyphenDigitPositions j rest
    else if isHexDigitGo c then hyphenDigitPositions (j + 1) rest
    else hyphenDigitPositions j rest

/-- Spec-side predicate (from the claim's words): every hyphen sits at a
canonical 8-4-4-4-12 group boundary, i.e. after exactly 8, 12, 16 or 20
hex digits. -/
def specCanonicalHyphens (cs : List Char) : Bool :=
  (hyphenDigitPositions 0 cs).all (fun p => (p == 8) || (p == 12) || (p == 16) || (p == 20))

/-- C8 counterexample: the claim says a string whose hyphens are not at
the canonical 8-4-4-4-12 positions is rejected, but this 32-digit input
with a hyphen after only 2 digits parses without error. -/
theorem ParseUUID_noncanonical_hyphen_counterexample :
    (ParseUUID "00-000000000000000000000000000000").2 = none ∧
    specCanonicalHyphens "00-000000000000000000000000000000".toList = false := by
  constructor
  · decide
  · decide

/-! ## CORS guard (src/context.go, lines 147-497)

Strings are ASCII in every header and origin the guard manipulates, so
Go's strings.ToLower / strings.ToUpper are modelled by Lean's
character-wise ASCII case mapping. -/

/-- Modelled from the spec: net/http's Header is an external collaborator;
a header map is a list of (canonical key, values) entries.  `Add` appends
a value to a key's list, `Set` replaces it, and direct map assignment
(`w.Header()[k] = v`) replaces the whole entry. -/
abbrev HeaderMap := List (String × List String)

def headerAdd (h : HeaderMap) (k v : String) : HeaderMap :=
  match h with
  | [] => [(k, [v])]
  | (k2, vs) :: rest =>
    if k2 = k then (k2, vs ++ [v]) :: rest
    else (k2, vs) :: headerAdd rest k v

def headerSet (h : HeaderMap) (k v : String) : HeaderMap :=
  match h with
  | [] => [(k, [v])]
  | (k2, vs) :: rest =>
    if k2 = k then (k, [v]) :: rest
    else (k2, vs) :: headerSet rest k v

def headerAssign (h : HeaderMap) (k : String) (vs : List String) : HeaderMap :=
  match h with
  | [] => [(k, vs)]
  | (k2, vs2) :: rest =>
    if k2 = k then (k, vs) :: rest
    else (k2, vs2) :: headerAssign rest k vs

def headerGetAll (h : HeaderMap) (k : String) : List String :=
  match h with
  | [] => []
  | (k2, vs) :: rest => if k2 = k then vs else headerGetAll rest k

/-- Header.Get: the first value stored under the key, or "". -/
def headerGet (h : HeaderMap) (k : String) : String := (headerGetAll h k).headD ""

/-- The `for k, v := range headers { w.Header()[k] = v }` copy at the end
of handlePreflight (src/context.go:387-389). -/
def copyHeaders (src dst : HeaderMap) : HeaderMap :=
  src.foldl (fun d kv => headerAssign d kv.1 kv.2) dst

/-- Modelled from the spec: net/http.CanonicalHeaderKey is an external
collaborator; it uppercases the first letter and each letter following a
hyphen and lowercases the rest (the invalid-byte early return is not
modelled; every key in scope is a valid token). -/
def canonAux : Bool → List Char → List Char
  | _, [] => []
  | up, c :: rest =>
    if c = '-' then c :: canonAux true rest
    else (if up then c.toUpper else c.toLower) :: canonAux false rest

def canonicalHeaderKey (s : String) : String := String.mk (canonAux true s.toList)

/-- Modelled from the spec: the missing parseHeaderList helper turns the
comma-separated probe header value into a list of canonicalized header
names (spec section 4.3: "comma-separated, case-insensitive,
canonicalized"); an empty value yields the empty list. -/
def parseHeaderList (s : String) : List String :=
  if s = "" then []
  else ((s.splitOn ",").map (fun t => canonicalHeaderKey t.trim)).filter (fun t => t ≠ "")

/-- Modelled from the spec: the missing `convert` helper applies a
transformation to every element of a string list. -/
def convert (ss : List String) (f : String → String) : List String := ss.map f

/-- Modelled from the spec: the missing wildcard type splits an
allowed-origin entry at its single `*` into a literal prefix and suffix
(spec section 4.3); a candidate matches if it starts with the former and
ends with the latter. -/
structure Wildcard where
  pre : String
  suf : String

def Wildcard.matches (w : Wildcard) (s : String) : Bool :=
  s.startsWith w.pre && s.endsWith w.suf

/-- cors.Options (src/context.go:176-212). -/
structure Options where
  allowedOrigins : List String
  allowOriginFunc : Option (String → Bool)
  allowedMethods : List String
  allowedHeaders : List String
  exposedHeaders : List String
  allowCredentials : Bool
  maxAge : Int
  optionsPassthrough : Bool
  debug : Bool
  allowIgnoreCORS : Bool

/-- cors.Cors (src/context.go:215-238), without the debug logger. -/
structure Cors where
  allowedOriginsAll : Bool
  allowedOrigins : List String
  allowedWOrigins : List Wildcard
  allowOriginFunc : Option (String → Bool)
  allowedHeadersAll : Bool
  allowedHeaders : List String
  allowedMethods : List String
  exposedHeaders : List String
  allowCredentials : Bool
  maxAge : Int
  optionPassthrough : Bool
  allowIgnoreCORS : Bool

/-- The allowed-origins normalization loop of cors.New
(src/context.go:261-284): sequentially partition lowered entries into
plain and wildcard origins; a bare "*" discards everything accumulated
and collapses to allow-all. -/
def normOrigins (accP : List String) (accW : List Wildcard) :
    List String → Bool × List String × List Wildcard
  | [] => (false, accP, accW)
  | og :: rest =>
    let og := og.toLower
    if og = "*" then (true, [], [])
    else
      match og.toList.findIdx? (fun c => c = '*') with
      | some i => normOrigins accP (accW ++ [⟨og.take i, og.drop (i + 1)⟩]) rest
      | none => normOrigins (accP ++ [og]) accW rest

/-- cors.New (src/context.go:241-311). -/
def corsNew (o : Options) : Cors :=
  let originState :=
    if o.allowedOrigins.length = 0 then (true, o.allowedOrigins, [])
    else normOrigins [] [] o.allowedOrigins
  let headerState :=
    if o.allowedHeaders.length = 0 then (false, ["Origin", "Accept", "Content-Type"])
    else if o.allowedHeaders.contains "*" then (true, ([] : List String))
    else (false, convert (o.allowedHeaders ++ ["Origin"]) canonicalHeaderKey)
  let methods :=
    if o.allowedMethods.length = 0 then ["GET", "POST"]
    else convert o.allowedMethods String.toUpper
  { allowedOriginsAll := originState.1
    allowedOrigins := originState.2.1
    allowedWOrigins := originState.2.2
    allowOriginFunc := o.allowOriginFunc
    allowedHeadersAll := headerState.1
    allowedHeaders := headerState.2
    allowedMethods := methods
    exposedHeaders := convert o.exposedHeaders canonicalHeaderKey
    allowCredentials := o.allowCredentials
    maxAge := o.maxAge
    optionPassthrough := o.optionsPassthrough
    allowIgnoreCORS := o.allowIgnoreCORS }

/-- Cors.isOriginAllowed (src/context.go:436-455). -/
def isOriginAllowed (c : Cors) (origin : String) : Bool :=
  match c.allowOriginFunc with
  | some f => f origin
  | none =>
    if c.allowedOriginsAll then true
    else
      let origin := origin.toLower
      if c.allowedOrigins.contains origin then true
      else c.allowedWOrigins.any (fun w => w.matches origin)

/-- Cors.isMethodAllowed (src/context.go:459-475). -/
def isMethodAllowed (c : Cors) (method : String) : Bool :=
  if c.allowedMethods.length = 0 then false
  else
    let m := method.toUpper
    if m = "OPTIONS" then true
    else c.allowedMethods.contains m

/-- Cors.areHeadersAllowed (src/context.go:479-496). -/
def areHeadersAllowed (c : Cors) (requested : List String) : Bool :=
  if c.allowedHeadersAll || requested.length = 0 then true
  else requested.all (fun h => c.allowedHeaders.contains (canonicalHeaderKey h))

/-- A transport request as the guard sees it: method plus header map. -/
structure HttpRequest where
  method : String
  header : HeaderMap

/-- A rest.Error as produced by NewErrorf (src/error.go:27-29): status,
no header overrides, and a basicError cause carrying the same status and
the formatted message. -/
structure BasicError where
  status : Nat
  message : String

structure RestError where
  status : Nat
  headers : Option (List (String × String))
  cause : BasicError

def newErrorf (s : Nat) (msg : String) : RestError := ⟨s, none, ⟨s, msg⟩⟩

/-- Cors.handlePreflight (src/context.go:340-392).  The first component
of the result is the response writer's header map after the call; the
three Vary entries are accumulated in the LOCAL `headers` map and reach
the writer only through the copy loop at the end of the success path. -/
def handlePreflight (c : Cors) (w : HeaderMap) (r : HttpRequest) :
    HeaderMap × Option RestError :=
  let headers : HeaderMap := []
  let origin := headerGet r.header "Origin"
  if r.method ≠ "OPTIONS" then
    (w, some (newErrorf 400 ("Invalid request method for pre-flight: " ++ r.method)))
  else
    let headers := headerAdd headers "Vary" "Origin"
    let headers := headerAdd headers "Vary" "Access-Control-Request-Method"
    let headers := headerAdd headers "Vary" "Access-Control-Request-Headers"
    if origin = "" then
      (w, some (newErrorf 400 "No origin provided"))
    else if isOriginAllowed c origin = false then
      (w, some (newErrorf 400 ("Origin is not permitted: " ++ origin)))
    else
      let reqMethod := headerGet r.header "Access-Control-Request-Method"
      if isMethodAllowed c reqMethod = false then
        (w, some (newErrorf 400 ("Method is not permitted: " ++ reqMethod)))
      else
        let reqHeaders := parseHeaderList (headerGet r.header "Access-Control-Request-Headers")
        if areHeadersAllowed c reqHeaders = false then
          (w, some (newErrorf 400 ("Headers not permitted: " ++ String.intercalate " " reqHeaders)))
        else
          let headers := headerSet headers "Access-Control-Allow-Methods" reqMethod.toUpper
          let headers :=
            if reqHeaders.length > 0 then
              headerSet headers "Access-Control-Allow-Headers" (String.intercalate ", " reqHeaders)
            else headers
          let headers := headerSet headers "Access-Control-Allow-Origin" origin
          let headers :=
            if c.allowCredentials then
              headerSet headers "Access-Control-Allow-Credentials" "true"
            else headers
          let headers :=
            if c.maxAge > 0 then
              headerSet headers "Access-Control-Max-Age" (toString c.maxAge)
            else headers
          (copyHeaders headers w, none)

/-! ### C2 and C10 -/

/-- C2: the claim states every preflight response carries exactly three
Vary entries regardless of outcome, and the source's own comment says
"Always set Vary headers".  But the three Vary entries are added to the
LOCAL `headers` map, which is copied to the response writer only on the
success path (src/context.go:386-389); every rejection returns before the
copy.  Evaluating the code at a failing input (OPTIONS request without
an Origin header): the response writer is returned completely unchanged,
so the rejected preflight response carries zero Vary entries, not
three. -/
theorem preflight_reject_drops_vary_headers (c : Cors) (w : HeaderMap) (r : HttpRequest)
    (hm : r.method = "OPTIONS") (ho : headerGet r.header "Origin" = "") :
    handlePreflight c w r = (w, some (newErrorf 400 "No origin provided")) := by
  simp only [handlePreflight, hm, ho]
  simp

/-- C2 witness policy: the all-defaults CORS handler. -/
def demoCors : Cors := corsNew ⟨[], none, [], [], [], false, 0, false, false, false⟩

/-- Witness for C2 at a concrete policy, writer and request. -/
theorem preflight_reject_drops_vary_headers_witness :
    handlePreflight demoCors [] ⟨"OPTIONS", []⟩
      = ([], some (newErrorf 400 "No origin provided")) :=
  preflight_reject_drops_vary_headers demoCors [] ⟨"OPTIONS", []⟩ rfl rfl

/-- C10: a policy built from options with an empty allowed-origins list
and no custom origin predicate allows every origin: cors.New sets
allowedOriginsAll on the empty list (src/context.go:261-263) and
isOriginAllowed short-circuits to true on that flag. -/
theorem empty_origins_allows_all (o : Options)
    (h1 : o.allowedOrigins = []) (h2 : o.allowOriginFunc = none) :
    ∀ origin, isOriginAllowed (corsNew o) origin = true := by
  intro origin
  simp [isOriginAllowed, corsNew, h1, h2]

/-- Witness for C10 at concrete options and origin. -/
theorem empty_origins_allows_all_witness :
    isOriginAllowed (corsNew ⟨[], none, ["GET"], [], [], false, 0, false, false, false⟩)
      "http://evil.example" = true :=
  empty_origins_allows_all _ rfl rfl "http://evil.example"

/-! ## Entity/Error responder (src/service.go, lines 142-215) and the
request id (src/pipeline.go, lines 63-69) -/

/-- Modelled from the spec: encoding/base64 RawURLEncoding is an external
collaborator; this is the unpadded URL-safe base64 alphabet. -/
def b64urlChar (n : Nat) : Char :=
  "ABCDEFGHIJKLMNOPQRSTUVWXYZabcdefghijklmnopqrstuvwxyz0123456789-_".toList.getD n ' '

/-- Modelled from the spec: unpadded URL-safe base64 of a byte sequence
(RFC 4648 section 5, no padding), as encoding/base64.RawURLEncoding
produces. -/
def base64RawURL : List Nat → List Char
  | [] => []
  | [b0] => [b64urlChar (b0 >>> 2), b64urlChar ((b0 &&& 3) <<< 4)]
  | [b0, b1] =>
    [b64urlChar (b0 >>> 2), b64urlChar (((b0 &&& 3) <<< 4) ||| (b1 >>> 4)),
     b64urlChar ((b1 &&& 15) <<< 2)]
  | b0 :: b1 :: b2 :: rest =>
    b64urlChar (b0 >>> 2) :: b64urlChar (((b0 &&& 3) <<< 4) ||| (b1 >>> 4)) ::
    b64urlChar (((b1 &&& 15) <<< 2) ||| (b2 >>> 6)) :: b64urlChar (b2 &&& 63) ::
    base64RawURL rest

/-- newRequestWithAttributes (src/pipeline.go:66-69): the request id is
the unpadded URL-safe base64 encoding of the 16 UUID bytes. -/
def requestId (uuid : List Nat) : String := String.mk (base64RawURL uuid)

/-- Modelled from the spec: encoding/json string escaping is an external
collaborator; Go escapes quote, backslash, control characters, and (by
default) the HTML-sensitive characters to \u-sequences. -/
def jsonEscapeChar (c : Char) : List Char :=
  if c = '"' then ['\\', '"']
  else if c = '\\' then ['\\', '\\']
  else if c = '<' then "\\u003c".toList
  else if c = '>' then "\\u003e".toList
  else if c = '&' then "\\u0026".toList
  else if c = '\n' then ['\\', 'n']
  else if c = '\r' then ['\\', 'r']
  else if c = '\t' then ['\\', 't']
  else if c.toNat < 32 then "\\u00".toList ++ [hexChar (c.toNat / 16), hexChar (c.toNat % 16)]
  else [c]

def jsonEscape (s : String) : String := String.mk (s.toList.flatMap jsonEscapeChar)

/-- json.Marshal of the basicError struct (src/error.go:53-56): the tags
`json:"status"` and `json:"message"` give the two-field object of the
documented shape. -/
def jsonBasicError (e : BasicError) : String :=
  "\x7b\"status\":" ++ toString e.status ++ ",\"message\":\"" ++ jsonEscape e.message ++ "\"\x7d"

/-- The response content dispatched on by sendEntity's type switch
(src/service.go:172-213): nil, an Entity stream with a content type, a
raw JSON byte sequence, or a basicError value hitting the generic
marshal branch (the only generic value the verified claims exercise). -/
inductive ResValue where
  | noContent
  | entity (ctype : String) (data : String)
  | rawJson (data : String)
  | basic (e : BasicError)

/-- A handler's returned error: a structured *rest.Error or any other
error value (src/service.go:147-154). -/
inductive GoErr where
  | rest (e : RestError)
  | generic (msg : String)

/-- The observable response writer state: headers, status code written by
WriteHeader, and accumulated body bytes. -/
structure RespWriter where
  header : HeaderMap
  status : Option Nat
  body : String

/-- The request fields the responder can observe: the correlation id and
the Accept header value (everything else it only logs). -/
structure ReqInfo where
  id : String
  accept : String

/-- Service.sendEntity (src/service.go:161-215). -/
def sendEntity (ua : String) (w : RespWriter) (status : Nat)
    (hdrs : Option (List (String × String))) (content : ResValue) : RespWriter :=
  let w :=
    match hdrs with
    | some hs =>
      { w with header :=
          hs.foldl (fun (h : HeaderMap) (kv : String × String) => headerAdd h kv.1 kv.2) w.header }
    | none => w
  let w :=
    if ua ≠ "" then { w with header := headerAdd w.header "User-Agent" ua } else w
  match content with
  | ResValue.noContent => { w with status := some status }
  | ResValue.entity t d =>
    { w with header := headerAdd w.header "Content-Type" t,
             status := some status, body := w.body ++ d }
  | ResValue.rawJson d =>
    { w with header := headerAdd w.header "Content-Type" "application/json",
             status := some status, body := w.body ++ d }
  | ResValue.basic e =>
    { w with header := headerAdd w.header "Content-Type" "application/json",
             status := some status, body := w.body ++ jsonBasicError e }

/-- Service.sendResponse (src/service.go:142-156): set X-Request-Id from
the request id, then dispatch on the error: success is 200, a structured
error carries its own status/headers/cause, anything else becomes a
generic 500 basicError. -/
def sendResponse (ua : String) (w : RespWriter) (req : ReqInfo)
    (res : Option ResValue) (err : Option GoErr) : RespWriter :=
  let w := { w with header := headerSet w.header "X-Request-Id" req.id }
  match err with
  | none =>
    sendEntity ua w 200 none
      (match res with
       | none => ResValue.noContent
       | some v => v)
  | some (GoErr.rest e) => sendEntity ua w e.status e.headers (ResValue.basic e.cause)
  | some (GoErr.generic m) => sendEntity ua w 500 none (ResValue.basic ⟨500, m⟩)

/-! ### Header membership lemmas -/

lemma mem_headerGetAll_headerAdd (h : HeaderMap) (k v k2 v2 : String)
    (hv : v ∈ headerGetAll h k) : v ∈ headerGetAll (headerAdd h k2 v2) k := by
  induction h with
  | nil => simp [headerGetAll] at hv
  | cons p rest ih =>
    obtain ⟨pk, pvs⟩ := p
    rw [headerGetAll] at hv
    rw [headerAdd]
    by_cases he : pk = k2
    · rw [if_pos he, headerGetAll]
      by_cases hk : pk = k
      · rw [if_pos hk] at hv ⊢
        exact List.mem_append_left _ hv
      · rw [if_neg hk] at hv ⊢
        exact hv
    · rw [if_neg he, headerGetAll]
      by_cases hk : pk = k
      · rw [if_pos hk] at hv ⊢
        exact hv
      · rw [if_neg hk] at hv ⊢
        exact ih hv

lemma mem_headerGetAll_headerAdd_self (h : HeaderMap) (k v : String) :
    v ∈ headerGetAll (headerAdd h k v) k := by
  induction h with
  | nil => simp [headerAdd, headerGetAll]
  | cons p rest ih =>
    obtain ⟨pk, pvs⟩ := p
    rw [headerAdd]
    by_cases he : pk = k
    · rw [if_pos he, headerGetAll, if_pos he]
      exact List.mem_append_right _ (by simp)
    · rw [if_neg he, headerGetAll, if_neg he]
      exact ih

lemma mem_headerGetAll_headerSet_self (h : HeaderMap) (k v : String) :
    v ∈ headerGetAll (headerSet h k v) k := by
  induction h with
  | nil => simp [headerSet, headerGetAll]
  | cons p rest ih =>
    obtain ⟨pk, pvs⟩ := p
    rw [headerSet]
    by_cases he : pk = k
    · rw [if_pos he, headerGetAll, if_pos rfl]
      simp
    · rw [if_neg he, headerGetAll, if_neg he]
      exact ih

lemma mem_headerGetAll_foldlAdd (hs : List (String × String)) :
    ∀ (h : HeaderMap) (k v : String), v ∈ headerGetAll h k →
      v ∈ headerGetAll
        (hs.foldl (fun (h : HeaderMap) (kv : String × String) => headerAdd h kv.1 kv.2) h) k := by
  induction hs with
  | nil => intro h k v hv; exact hv
  | cons kv rest ih =>
    intro h k v hv
    rw [List.foldl_cons]
    exact ih _ k v (mem_headerGetAll_headerAdd h k v kv.1 kv.2 hv)

lemma mem_headerGetAll_sendEntity (ua : String) (w : RespWriter) (status : Nat)
    (hdrs : Option (List (String × String))) (content : ResValue) (k v : String)
    (hv : v ∈ headerGetAll w.header k) :
    v ∈ headerGetAll (sendEntity ua w status hdrs content).header k := by
  rw [sendEntity.eq_def]
  have step1 :
      ∀ w1 : RespWriter, v ∈ headerGetAll w1.header k →
        v ∈ headerGetAll (if ua ≠ "" then
          { w1 with header := headerAdd w1.header "User-Agent" ua } else w1).header k := by
    intro w1 hv1
    by_cases hua : ua ≠ ""
    · rw [if_pos hua]
      exact mem_headerGetAll_headerAdd _ _ _ _ _ hv1
    · rw [if_neg hua]
      exact hv1
  have step0 : v ∈ headerGetAll
      (match hdrs with
       | some hs =>
         { w with header :=
             hs.foldl (fun (h : HeaderMap) (kv : String × String) => headerAdd h kv.1 kv.2) w.header }
       | none => w).header k := by
    cases hdrs with
    | none => exact hv
    | some hs => exact mem_headerGetAll_foldlAdd hs w.header k v hv
  cases content with
  | noContent => exact step1 _ step0
  | entity t d => exact mem_headerGetAll_headerAdd _ _ _ _ _ (step1 _ step0)
  | rawJson d => exact mem_headerGetAll_headerAdd _ _ _ _ _ (step1 _ step0)
  | basic e => exact mem_headerGetAll_headerAdd _ _ _ _ _ (step1 _ step0)

/-! ### C3 -/

/-- C3 (amended): every response written by the default responder carries
an X-Request-Id header holding the request's id, and for a request built
by newRequest that id is the unpadded URL-safe base64 encoding of the
UUID's 16 bytes (src/pipeline.go:68) — not the canonical hyphenated hex
form the claim describes. -/
theorem xRequestId_carries_base64_id (ua : String) (w : RespWriter) (uuid : List Nat)
    (acc : String) (res : Option ResValue) (err : Option GoErr) :
    requestId uuid ∈
      headerGetAll ((sendResponse ua w ⟨requestId uuid, acc⟩ res err).header) "X-Request-Id" := by
  rw [sendResponse.eq_def]
  have hbase :
      requestId uuid ∈
        headerGetAll (headerSet w.header "X-Request-Id" (requestId uuid)) "X-Request-Id" :=
    mem_headerGetAll_headerSet_self w.header "X-Request-Id" (requestId uuid)
  cases err with
  | none => exact mem_headerGetAll_sendEntity _ _ _ _ _ _ _ hbase
  | some e =>
    cases e with
    | rest e => exact mem_headerGetAll_sendEntity _ _ _ _ _ _ _ hbase
    | generic m => exact mem_headerGetAll_sendEntity _ _ _ _ _ _ _ hbase

/-- C3 counterexample UUID: bytes 0 through 15. -/
def demoRequestUUID : List Nat := [0, 1, 2, 3, 4, 5, 6, 7, 8, 9, 10, 11, 12, 13, 14, 15]

/-- Spec-side lowercase hex digit test (from the claim's words). -/
def isLowerHexDigit (c : Char) : Bool := ('0' ≤ c && c ≤ '9') || ('a' ≤ c && c ≤ 'f')

/-- Spec-side predicate (from the claim's words): the canonical external
form of a correlation id, lowercase hex grouped as 8-4-4-4-12 digits
separated by hyphens. -/
def canonicalUUIDFormat (s : String) : Bool :=
  (s.toList.length == 36) &&
  (List.range 36).all (fun i =>
    if i == 8 || i == 13 || i == 18 || i == 23 then s.toList.getD i ' ' == '-'
    else isLowerHexDigit (s.toList.getD i ' '))

/-- C3 counterexample: at a concrete UUID the default responder's
X-Request-Id value is the 22-character base64 string, which is not in
the canonical 8-4-4-4-12 lowercase-hex form (and differs from the
canonical rendering of the same UUID). -/
theorem xRequestId_not_canonical_counterexample :
    headerGetAll ((sendResponse "" ⟨[], none, ""⟩ ⟨requestId demoRequestUUID, ""⟩
        none none).header) "X-Request-Id" = [requestId demoRequestUUID] ∧
    canonicalUUIDFormat (requestId demoRequestUUID) = false ∧
    requestId demoRequestUUID ≠ uuidString demoRequestUUID := by
  refine ⟨by decide, by decide, by decide⟩

/-! ### C4 -/

lemma contentType_json_sendEntity (ua : String) (w : RespWriter) (s : Nat) (e : BasicError) :
    "application/json" ∈
      headerGetAll (sendEntity ua w s none (ResValue.basic e)).header "Content-Type" := by
  rw [sendEntity.eq_def]
  by_cases hua : ua ≠ ""
  · simp only [if_pos hua]
    exact mem_headerGetAll_headerAdd_self _ _ _
  · simp only [if_neg hua]
    exact mem_headerGetAll_headerAdd_self _ _ _

/-- C4 (amended): a handler returning a structured Error with status 404
(as built by NewErrorf) yields a response with status exactly 404 and
the JSON body of shape status/message with Content-Type
application/json, REGARDLESS of the request's Accept header: the
responder never consults Accept and no HTML rendering exists in the
code. -/
theorem error404_json_regardless_of_accept (ua : String) (w : RespWriter)
    (id acc acc2 : String) (res : Option ResValue) (msg : String) :
    (sendResponse ua w ⟨id, acc⟩ res (some (GoErr.rest (newErrorf 404 msg)))).status
      = some 404 ∧
    (sendResponse ua w ⟨id, acc⟩ res (some (GoErr.rest (newErrorf 404 msg)))).body
      = w.body ++ jsonBasicError ⟨404, msg⟩ ∧
    "application/json" ∈ headerGetAll
      (sendResponse ua w ⟨id, acc⟩ res (some (GoErr.rest (newErrorf 404 msg)))).header
      "Content-Type" ∧
    sendResponse ua w ⟨id, acc⟩ res (some (GoErr.rest (newErrorf 404 msg)))
      = sendResponse ua w ⟨id, acc2⟩ res (some (GoErr.rest (newErrorf 404 msg))) := by
  refine ⟨?_, ?_, ?_, rfl⟩
  · by_cases hua : ua = "" <;> simp [sendResponse, sendEntity, newErrorf, hua]
  · by_cases hua : ua = "" <;> simp [sendResponse, sendEntity, newErrorf, hua]
  · exact contentType_json_sendEntity ua _ 404 ⟨404, msg⟩

/-- C4 counterexample: the claim says a client whose Accept header
requests HTML receives an HTML document containing the escaped message.
At a concrete 404 error with Accept set to text/html the body is the
JSON object, served as application/json, and contains no ASCII 60
(less-than) character at all — so it is not an HTML document. -/
theorem error404_html_accept_counterexample :
    (sendResponse "" ⟨[], none, ""⟩ ⟨"req1", "text/html"⟩ none
        (some (GoErr.rest (newErrorf 404 "missing")))).body
      = "\x7b\"status\":404,\"message\":\"missing\"\x7d" ∧
    ((sendResponse "" ⟨[], none, ""⟩ ⟨"req1", "text/html"⟩ none
        (some (GoErr.rest (newErrorf 404 "missing")))).body.toList.all
      (fun c => c ≠ '<')) = true ∧
    headerGetAll (sendResponse "" ⟨[], none, ""⟩ ⟨"req1", "text/html"⟩ none
        (some (GoErr.rest (newErrorf 404 "missing")))).header "Content-Type"
      = ["application/json"] ∧
    (sendResponse "" ⟨[], none, ""⟩ ⟨"req1", "text/html"⟩ none
        (some (GoErr.rest (newErrorf 404 "missing")))).status = some 404 := by
  refine ⟨by decide, by decide, by decide, by decide⟩

/-! ## Pipeline.Add under Go slice semantics (src/pipeline.go, lines 133-147)

The frame property of Add (the receiver is never mutated) is only
meaningful under Go's real slice semantics, where append writes into a
shared backing array whenever spare capacity exists.  A store is a list
of backing arrays; a slice header carries an array id, offset, length
and capacity; a Pipeline value is a possibly-nil slice of handler
values (nil and empty slices are distinct in Go, and Add's first branch
tests for nil). -/

structure SliceRef where
  arr : Nat
  off : Nat
  len : Nat
  cap : Nat
deriving DecidableEq

inductive HV where
  | hnil
  | hfunc (id : Nat)
  | hpipe (p : Option SliceRef)
deriving DecidableEq

abbrev Store := List (List HV)

/-- The handler sequence a slice header denotes in a store. -/
def sliceView (st : Store) (s : SliceRef) : List HV :=
  ((st.getD s.arr []).drop s.off).take s.len

/-- The handler sequence a Pipeline value (possibly nil) denotes. -/
def viewOpt (st : Store) (p : Option SliceRef) : List HV :=
  match p with
  | none => []
  | some s => sliceView st s

/-- Overwrite a[i..i+|xs|) with xs. -/
def writeRange (a : List HV) (i : Nat) (xs : List HV) : List HV :=
  a.take i ++ xs ++ a.drop (i + xs.length)

/-- Go make([]Handler, n): a fresh array of n zero-value handlers with
len = cap = n. -/
def makeSlice (st : Store) (n : Nat) : Store × SliceRef :=
  (st ++ [List.replicate n HV.hnil], ⟨st.length, 0, n, n⟩)

/-- Go copy(dst, src): writes min(len(dst), len(src)) elements of src
into dst's backing array region. -/
def copySlice (st : Store) (dst src : SliceRef) : Store :=
  st.set dst.arr
    (writeRange (st.getD dst.arr []) dst.off ((sliceView st src).take (min dst.len src.len)))

/-- Go append(s, vs...): writes in place into the shared backing array
when spare capacity suffices, otherwise allocates a grown array.  The
grown capacity is modelled as exactly the needed length; Go over-grows,
but no verified property observes the resulting capacity. -/
def goAppend (st : Store) (s : SliceRef) (vs : List HV) : Store × SliceRef :=
  if s.len + vs.length ≤ s.cap then
    (st.set s.arr (writeRange (st.getD s.arr []) (s.off + s.len) vs),
     ⟨s.arr, s.off, s.len + vs.length, s.cap⟩)
  else
    (st ++ [sliceView st s ++ vs], ⟨st.length, 0, s.len + vs.length, s.len + vs.length⟩)

/-- Pipeline.Add (src/pipeline.go:133-147): a nil receiver returns the
literal Pipeline{h} (note: BEFORE the type switch, so a Pipeline handler
is nested, not flattened); otherwise copy the receiver into a fresh
same-length slice and append — flattening the elements when the handler
is itself a Pipeline. -/
def pipelineAdd (st : Store) (p : Option SliceRef) (h : HV) : Store × Option SliceRef :=
  match p with
  | none => (st ++ [[h]], some ⟨st.length, 0, 1, 1⟩)
  | some s =>
    let m := makeSlice st s.len
    let st2 := copySlice m.1 m.2 s
    match h with
    | HV.hpipe v =>
      let r := goAppend st2 m.2 (viewOpt st2 v)
      (r.1, some r.2)
    | _ =>
      let r := goAppend st2 m.2 [h]
      (r.1, some r.2)

/-- A slice header that refers to an existing array region of the store. -/
def validRef (st : Store) (s : SliceRef) : Prop :=
  s.arr < st.length ∧ s.off + s.cap ≤ (st.getD s.arr []).length ∧ s.len ≤ s.cap

def validOpt (st : Store) (p : Option SliceRef) : Prop :=
  match p with
  | none => True
  | some s => validRef st s

lemma storeGetD_set_ne (l : Store) (i j : Nat) (a : List HV) (h : i ≠ j) :
    (l.set i a).getD j [] = l.getD j [] := by
  simp [List.getD, List.getElem?_set_ne h]

lemma storeGetD_set_self (l : Store) (i : Nat) (a : List HV) (h : i < l.length) :
    (l.set i a).getD i [] = a := by
  simp [List.getD, List.getElem?_set_self, h]

lemma storeGetD_append (l : Store) (x : List HV) (i : Nat) (h : i < l.length) :
    (l ++ [x]).getD i [] = l.getD i [] := by
  rw [List.getD_append _ _ _ _ h]

lemma storeGetD_append_self (l : Store) (x : List HV) :
    (l ++ [x]).getD l.length [] = x := by
  simp [List.getD, List.getElem?_append_right (Nat.le_refl l.length)]

lemma length_sliceView (st : Store) (s : SliceRef) (hv : validRef st s) :
    (sliceView st s).length = s.len := by
  obtain ⟨_, hbound, hlen⟩ := hv
  rw [sliceView, List.length_take, List.length_drop]
  omega

lemma goAppend_pos (st : Store) (s : SliceRef) (vs : List HV)
    (hc : s.len + vs.length ≤ s.cap) :
    goAppend st s vs
      = (st.set s.arr (writeRange (st.getD s.arr []) (s.off + s.len) vs),
         ⟨s.arr, s.off, s.len + vs.length, s.cap⟩) := by
  rw [goAppend, if_pos hc]

lemma goAppend_neg (st : Store) (s : SliceRef) (vs : List HV)
    (hc : ¬(s.len + vs.length ≤ s.cap)) :
    goAppend st s vs
      = (st ++ [sliceView st s ++ vs],
         ⟨st.length, 0, s.len + vs.length, s.len + vs.length⟩) := by
  rw [goAppend, if_neg hc]

/-- Every array the store held before an Add on a non-nil receiver is
untouched: Add writes only into arrays allocated during the call. -/
lemma pipelineAdd_preserves_getD (st : Store) (s : SliceRef) (h : HV) (idx : Nat)
    (hidx : idx < st.length) :
    ((pipelineAdd st (some s) h).1).getD idx [] = st.getD idx [] := by
  have hne : st.length ≠ idx := by omega
  have hst1 : (st ++ [List.replicate s.len HV.hnil]).getD idx [] = st.getD idx [] :=
    storeGetD_append _ _ _ hidx
  have hst2 : (copySlice (st ++ [List.replicate s.len HV.hnil])
      ⟨st.length, 0, s.len, s.len⟩ s).getD idx [] = st.getD idx [] := by
    rw [copySlice]
    rw [storeGetD_set_ne _ _ _ _ hne]
    exact hst1
  have hlen2 : (copySlice (st ++ [List.replicate s.len HV.hnil])
      ⟨st.length, 0, s.len, s.len⟩ s).length = st.length + 1 := by
    rw [copySlice, List.length_set, List.length_append]
    rfl
  have hga : ∀ vs : List HV,
      ((goAppend (copySlice (st ++ [List.replicate s.len HV.hnil])
        ⟨st.length, 0, s.len, s.len⟩ s) ⟨st.length, 0, s.len, s.len⟩ vs).1).getD idx []
        = st.getD idx [] := by
    intro vs
    by_cases hc : s.len + vs.length ≤ s.len
    · rw [goAppend_pos _ ⟨st.length, 0, s.len, s.len⟩ vs hc]
      dsimp only
      rw [storeGetD_set_ne _ _ _ _ hne]
      exact hst2
    · rw [goAppend_neg _ ⟨st.length, 0, s.len, s.len⟩ vs hc]
      dsimp only
      rw [storeGetD_append _ _ _ (by omega)]
      exact hst2
  cases h with
  | hnil =>
    simp only [pipelineAdd, makeSlice]
    exact hga [HV.hnil]
  | hfunc id =>
    simp only [pipelineAdd, makeSlice]
    exact hga [HV.hfunc id]
  | hpipe v =>
    simp only [pipelineAdd, makeSlice]
    exact hga _

/-- C6: Add never mutates the receiver: the handler sequence observed
through the receiver pipeline is identical before and after the call,
including for the nil/empty receiver.  The statement quantifies over the
heap of backing arrays, so in-place append mutation (which Go performs
when capacity allows) would falsify it; Add always copies first. -/
theorem add_preserves_receiver (st : Store) (p : Option SliceRef) (h : HV)
    (hv : validOpt st p) :
    viewOpt (pipelineAdd st p h).1 p = viewOpt st p := by
  cases p with
  | none => rfl
  | some s =>
    have hval : validRef st s := hv
    simp only [viewOpt, sliceView]
    rw [pipelineAdd_preserves_getD st s h s.arr hval.1]

/-- C6 witness store: one pipeline of one handler. -/
def demoStore6 : Store := [[HV.hfunc 7]]

/-- C6 witness slice: the pipeline over demoStore6. -/
def demoRef6 : SliceRef := ⟨0, 0, 1, 1⟩

/-- Witness for C6 at a concrete store, receiver and handler. -/
theorem add_preserves_receiver_witness :
    viewOpt (pipelineAdd demoStore6 (some demoRef6) (HV.hfunc 9)).1 (some demoRef6)
      = viewOpt demoStore6 (some demoRef6) :=
  add_preserves_receiver demoStore6 (some demoRef6) (HV.hfunc 9)
    ⟨by decide, by decide, by decide⟩

/-- A freshly appended array viewed through a slice covering it wholly. -/
lemma sliceView_fresh (stX : Store) (a : List HV) (l c : Nat) (hl : l = a.length) :
    sliceView (stX ++ [a]) ⟨stX.length, 0, l, c⟩ = a := by
  rw [sliceView]
  dsimp only
  rw [storeGetD_append_self, List.drop_zero, hl, List.take_length]

lemma writeRange_nil (a : List HV) (i : Nat) : writeRange a i [] = a := by
  rw [writeRange]
  simp [List.take_append_drop]

/-- C5 (amended): for a NON-NIL receiver, Add flattens a Pipeline
handler: the resulting pipeline's handler sequence is exactly the
receiver's sequence followed by the appended pipeline's sequence, so it
dispatches identically to appending each element individually.  (For a
nil receiver the nil-check at src/pipeline.go:134 fires BEFORE the type
switch, nesting the pipeline as one opaque handler instead — see the
counterexample.) -/
theorem add_flattens_nonnil (st : Store) (s : SliceRef) (v : Option SliceRef)
    (hs : validRef st s) (hv : validOpt st v) :
    viewOpt (pipelineAdd st (some s) (HV.hpipe v)).1 (pipelineAdd st (some s) (HV.hpipe v)).2
      = sliceView st s ++ viewOpt st v := by
  have hview1 : sliceView (st ++ [List.replicate s.len HV.hnil]) s = sliceView st s := by
    rw [sliceView, sliceView, storeGetD_append st _ s.arr hs.1]
  have hlenv : (sliceView st s).length = s.len := length_sliceView st s hs
  have hst2 : copySlice (st ++ [List.replicate s.len HV.hnil])
      ⟨st.length, 0, s.len, s.len⟩ s
      = (st ++ [List.replicate s.len HV.hnil]).set st.length (sliceView st s) := by
    rw [copySlice]
    congr 1
    dsimp only
    rw [storeGetD_append_self st _, hview1, Nat.min_self, ← hlenv, List.take_length,
        writeRange]
    simp [hlenv]
  have hlen1 : (st ++ [List.replicate s.len HV.hnil]).length = st.length + 1 := by
    rw [List.length_append]
    rfl
  have hgdself : ((st ++ [List.replicate s.len HV.hnil]).set st.length
      (sliceView st s)).getD st.length [] = sliceView st s :=
    storeGetD_set_self _ _ _ (by omega)
  have hvs : viewOpt ((st ++ [List.replicate s.len HV.hnil]).set st.length
      (sliceView st s)) v = viewOpt st v := by
    cases v with
    | none => rfl
    | some vr =>
      have hvr : validRef st vr := hv
      have h1 : vr.arr < st.length := hvr.1
      simp only [viewOpt, sliceView]
      rw [storeGetD_set_ne _ _ _ _ (by omega), storeGetD_append st _ _ h1]
  have hviewSc : sliceView ((st ++ [List.replicate s.len HV.hnil]).set st.length
      (sliceView st s)) ⟨st.length, 0, s.len, s.len⟩ = sliceView st s := by
    rw [sliceView]
    dsimp only
    rw [hgdself, List.drop_zero, ← hlenv, List.take_length]
  simp only [pipelineAdd, makeSlice]
  rw [hst2, hvs]
  by_cases hvempty : viewOpt st v = []
  · rw [hvempty]
    rw [goAppend_pos _ ⟨st.length, 0, s.len, s.len⟩ [] (by simp)]
    simp only [viewOpt]
    rw [writeRange_nil]
    rw [sliceView]
    dsimp only
    rw [storeGetD_set_self _ _ _ (by rw [List.length_set, hlen1]; omega), hgdself,
        List.drop_zero]
    simp only [List.length_nil, Nat.add_zero]
    rw [← hlenv, List.take_length, List.append_nil]
  · rw [goAppend_neg _ ⟨st.length, 0, s.len, s.len⟩ (viewOpt st v)
        (by dsimp only
            have := List.length_pos.mpr hvempty
            omega)]
    simp only [viewOpt]
    rw [hviewSc]
    exact sliceView_fresh _ _ _ _ (by rw [List.length_append, hlenv])

/-- C5 counterexample store: one backing array holding the two handlers
of the sub-pipeline P2. -/
def demoStore5 : Store := [[HV.hfunc 1, HV.hfunc 2]]

/-- C5 counterexample slice: P2 = the two-handler pipeline. -/
def demoP2 : SliceRef := ⟨0, 0, 2, 2⟩

/-- C5 counterexample: for the NIL pipeline P1, P1.Add(P2) is a
one-element pipeline holding P2 as a single opaque handler (the
nil-check precedes the type switch), whereas appending each handler of
P2 individually yields the two-element pipeline — the claimed
element-for-element equality fails. -/
theorem add_nil_pipeline_nests_counterexample :
    viewOpt (pipelineAdd demoStore5 none (HV.hpipe (some demoP2))).1
        (pipelineAdd demoStore5 none (HV.hpipe (some demoP2))).2
      = [HV.hpipe (some demoP2)] ∧
    viewOpt (pipelineAdd (pipelineAdd demoStore5 none (HV.hfunc 1)).1
          (pipelineAdd demoStore5 none (HV.hfunc 1)).2 (HV.hfunc 2)).1
        (pipelineAdd (pipelineAdd demoStore5 none (HV.hfunc 1)).1
          (pipelineAdd demoStore5 none (HV.hfunc 1)).2 (HV.hfunc 2)).2
      = [HV.hfunc 1, HV.hfunc 2] ∧
    ([HV.hpipe (some demoP2)] : List HV) ≠ [HV.hfunc 1, HV.hfunc 2] := by
  refine ⟨by decide, by decide, by decide⟩

/-- C5 witness store: P1 = [hfunc 1] and P2 = [hfunc 2, hfunc 3]. -/
def demoStore5w : Store := [[HV.hfunc 1], [HV.hfunc 2, HV.hfunc 3]]

def demoP1w : SliceRef := ⟨0, 0, 1, 1⟩

def demoP2w : SliceRef := ⟨1, 0, 2, 2⟩

/-- Witness for C5 (amended) at concrete non-nil pipelines. -/
theorem add_flattens_nonnil_witness :
    viewOpt (pipelineAdd demoStore5w (some demoP1w) (HV.hpipe (some demoP2w))).1
        (pipelineAdd demoStore5w (some demoP1w) (HV.hpipe (some demoP2w))).2
      = sliceView demoStore5w demoP1w ++ viewOpt demoStore5w (some demoP2w) :=
  add_flattens_nonnil demoStore5w demoP1w (some demoP2w)
    ⟨by decide, by decide, by decide⟩ ⟨by decide, by decide, by decide⟩
